import Mathlib

/-!
Verification of the NL2KQL refinement pipeline (TypeScript repository NL2KQL).

The development shallowly embeds the core pipeline components:
  - QueryRefiner (validate-and-repair loop over KQL candidate strings),
  - SchemaRefiner (entity extraction, schema scoring and reduction),
  - FewShotSelector (token-based similarity and example selection),
  - NL2KQLEngine.convert (orchestration and error handling).

JavaScript strings are modelled as `List Char`; JavaScript numbers arising in
scores are exact (`Nat` accumulations, `Rat` for averaged/fractional scores).
The character-class predicates model the ASCII behaviour of the JavaScript
regular-expression classes used by the source.
-/

namespace NL2KQL

/-- Whitespace model for JavaScript `trim` and the regex class `\s`
(ASCII fragment). -/
def isWs (c : Char) : Bool :=
  c = ' ' || c = '\t' || c = '\n' || c = '\r' || c.toNat = 11 || c.toNat = 12

/-- ASCII uppercase letter, the regex class `[A-Z]`. -/
def isUpperA (c : Char) : Bool := 65 ≤ c.toNat && c.toNat ≤ 90

/-- ASCII lowercase letter, the regex class `[a-z]`. -/
def isLowerA (c : Char) : Bool := 97 ≤ c.toNat && c.toNat ≤ 122

/-- ASCII digit, the regex class `[0-9]`. -/
def isDigitA (c : Char) : Bool := 48 ≤ c.toNat && c.toNat ≤ 57

/-- Word character, the regex class `\w` = `[A-Za-z0-9_]`. -/
def isWordChar (c : Char) : Bool := isUpperA c || isLowerA c || isDigitA c || c = '_'

theorem lowerChar_valid (c : Char) (h : 65 ≤ c.toNat ∧ c.toNat ≤ 90) :
    (c.val + 32).isValidChar := by
  have hadd : (c.val + 32).toNat = (c.val.toNat + 32) % 2 ^ 32 := rfl
  have hc : c.toNat = c.val.toNat := rfl
  left
  rw [hadd]
  omega

/-- ASCII model of JavaScript `String.prototype.toLowerCase` on a single
character: uppercase ASCII letters are shifted down by 32, everything else is
kept. -/
def lowerChar (c : Char) : Char :=
  if h : 65 ≤ c.toNat ∧ c.toNat ≤ 90 then ⟨c.val + 32, lowerChar_valid c h⟩ else c

/-- `toLowerCase` on a whole string. -/
def toLowerL (s : List Char) : List Char := s.map lowerChar

/-- The single-quote character (code 39). -/
def squote : Char := Char.ofNat 39

/-- The double-quote character (code 34). -/
def dquote : Char := Char.ofNat 34

/-- Does `pat` occur at the very start of `s`?  (JavaScript `startsWith`.) -/
def startsWithL : List Char → List Char → Bool
  | [], _ => true
  | _ :: _, [] => false
  | a :: as, b :: bs => a = b && startsWithL as bs

/-- Does `pat` occur anywhere inside `s`?  (JavaScript `includes`.) -/
def containsSub (pat : List Char) : List Char → Bool
  | [] => pat.isEmpty
  | c :: rest => startsWithL pat (c :: rest) || containsSub pat rest

/-- JavaScript `split('\n')`: split at every newline, keeping empty pieces. -/
def splitLines : List Char → List (List Char)
  | [] => [[]]
  | c :: rest =>
    match splitLines rest with
    | [] => []
    | l :: ls => if c = '\n' then [] :: l :: ls else (c :: l) :: ls

/-- JavaScript `join('\n')`. -/
def joinLines : List (List Char) → List Char
  | [] => []
  | [l] => l
  | l :: ls => l ++ '\n' :: joinLines ls

/-- JavaScript `trim` (ASCII whitespace model). -/
def trim (s : List Char) : List Char :=
  ((s.dropWhile isWs).reverse.dropWhile isWs).reverse

/-- Deduplication keeping the first occurrence of each element, the order
produced by the JavaScript idiom `[...new Set(xs)]`. -/
def dedupFirst {α : Type} [DecidableEq α] (l : List α) : List α :=
  l.reverse.dedup.reverse

/-- One pass of the stable descending insertion used to model JavaScript's
stable `Array.prototype.sort((a, b) => b.score - a.score)`. -/
def insertDesc {α β : Type} [LinearOrder β] (x : α × β) : List (α × β) → List (α × β)
  | [] => [x]
  | y :: ys => if y.2 > x.2 then y :: insertDesc x ys else x :: y :: ys

/-- Stable sort, descending in the second (score) component. -/
def sortDesc {α β : Type} [LinearOrder β] (l : List (α × β)) : List (α × β) :=
  l.foldr insertDesc []

/-- Model of the JavaScript global replace of one fixed three-character
pattern by a two-character replacement (`replace(/===/g, '==')` and
`replace(/!==/g, '!=')`): scan left to right, never overlapping matches. -/
def replaceSub3 (p1 p2 p3 r1 r2 : Char) : List Char → List Char
  | c1 :: c2 :: c3 :: rest =>
    if c1 = p1 && c2 = p2 && c3 = p3 then
      r1 :: r2 :: replaceSub3 p1 p2 p3 r1 r2 rest
    else
      c1 :: replaceSub3 p1 p2 p3 r1 r2 (c2 :: c3 :: rest)
  | s => s

/-!  ## Query Refiner (src/unnamed/part_000, class QueryRefiner)  -/

/-- The schema argument of refineQuery: plain table and column name lists. -/
structure QuerySchema where
  tables : List String
  columns : List String
deriving DecidableEq

/-- Result record of QueryRefiner.refineQuery. -/
structure RefinementResult where
  query : List Char
  isValid : Bool
  errors : List String
  fixes : List String
  attempts : Nat
deriving DecidableEq

/-- The missing-pipe check of validateSyntax: for every non-first line (of the
pre-filtered non-blank lines) that does not start with a pipe, comment, or dot
marker, report an error naming the (1-based) line number. -/
def pipeErrs : Nat → List (List Char) → List String
  | _, [] => []
  | i, l :: ls =>
    (if 1 ≤ i then
      (let line := trim l
       if !line.isEmpty && !startsWithL ['|'] line && !startsWithL ['/', '/'] line &&
           !startsWithL ['.'] line then
         ["Missing pipe operator at line " ++ Nat.repr (i + 1)]
       else [])
     else []) ++ pipeErrs (i + 1) ls

/-- QueryRefiner.validateSyntax (part_000, lines 253-295): balanced
parentheses/brackets, even quote counts, no strict (in)equality tokens, and
pipe markers on continuation lines. -/
def validateSyntaxL (kql : List Char) : List String :=
  (if kql.count '(' ≠ kql.count ')' then ["Unbalanced parentheses"] else []) ++
    (if kql.count '[' ≠ kql.count ']' then ["Unbalanced brackets"] else []) ++
    (if kql.count squote % 2 ≠ 0 then ["Unbalanced single quotes"] else []) ++
    (if kql.count dquote % 2 ≠ 0 then ["Unbalanced double quotes"] else []) ++
    (if containsSub ['=', '=', '='] kql || containsSub ['!', '=', '='] kql then
      ["Use == or != instead of === or !=="] else []) ++
    pipeErrs 0 ((splitLines kql).filter (fun l => !(trim l).isEmpty))

/-- The per-line step of the missing-pipe repair: prepend a pipe marker to a
non-blank continuation line that lacks one. -/
def fixLine (l : List Char) : List Char :=
  let trimmed := trim l
  if !trimmed.isEmpty && !startsWithL ['|'] trimmed && !startsWithL ['/', '/'] trimmed &&
      !startsWithL ['.'] trimmed then
    '|' :: ' ' :: trimmed
  else l

/-- Index-aware map over the lines, leaving line 0 unchanged. -/
def fixLines : Nat → List (List Char) → List (List Char)
  | _, [] => []
  | i, l :: ls => (if i = 0 then l else fixLine l) :: fixLines (i + 1) ls

/-- QueryRefiner.fixSyntaxErrors (part_000, lines 349-393): collapse strict
(in)equality tokens, append missing closers and quotes, prepend missing pipe
markers.  The `errors` argument is accepted but (as in the source) the fixes
are recomputed from the string itself. -/
def fixSyntaxErrorsL (kql : List Char) (errors : List String) : List Char :=
  let f1 := replaceSub3 '=' '=' '=' '=' '=' kql
  let f2 := replaceSub3 '!' '=' '=' '!' '=' f1
  let f3 :=
    if f2.count '(' > f2.count ')' then
      f2 ++ List.replicate (f2.count '(' - f2.count ')') ')'
    else f2
  let f4 :=
    if f3.count '[' > f3.count ']' then
      f3 ++ List.replicate (f3.count '[' - f3.count ']') ']'
    else f3
  let f5 := if f4.count squote % 2 ≠ 0 then f4 ++ [squote] else f4
  let f6 := if f5.count dquote % 2 ≠ 0 then f5 ++ [dquote] else f5
  joinLines (fixLines 0 (splitLines f6))

/-- Embeds QueryRefiner.validateSemantics (part_000, lines 301-344).  The
source collects schema-plausibility notes into a local warnings array but
deliberately ends with an unconditional return of the empty list (lines
341-343: schema mismatches must not fail validation), so as a function of its
inputs its value is the empty list on every input; the computed warnings are
discarded. -/
def validateSemanticsL (kql : List Char) (schema : QuerySchema) : List String := []

/-- First quoted substring of an error message, the regex
match of a quote, one-or-more non-quotes, and a closing quote. -/
def firstQuoted : List Char → Option (List Char)
  | [] => none
  | c :: rest =>
    if c = dquote then
      let body := rest.takeWhile (fun d => !(d = dquote))
      match rest.dropWhile (fun d => !(d = dquote)) with
      | _ :: _ => if body.isEmpty then firstQuoted rest else some body
      | [] => none
    else firstQuoted rest

/-- QueryRefiner.findClosestMatch (part_000, lines 438-465): prefer an exact
case-insensitive match, else the containment match with the best length
ratio. -/
def findClosestMatch (target : List Char) (candidates : List (List Char)) :
    Option (List Char) :=
  let targetLower := toLowerL target
  (candidates.foldl
    (fun (acc : Option (List Char) × Rat) candidate =>
      let candidateLower := toLowerL candidate
      if candidateLower = targetLower then (some candidate, 1)
      else if containsSub targetLower candidateLower ||
          containsSub candidateLower targetLower then
        let score : Rat := ((min candidateLower.length targetLower.length : Nat) : Rat) /
          ((max candidateLower.length targetLower.length : Nat) : Rat)
        if score > acc.2 then (some candidate, score) else acc
      else acc)
    (none, 0)).1

/-- Case-insensitive comparison of `t` against the start of `s`. -/
def ciAt (t s : List Char) : Bool :=
  t.length ≤ s.length && toLowerL (s.take t.length) = toLowerL t

/-- Word boundary of the regex `\b` between two optional neighbouring
characters (string edges count as non-word). -/
def boundaryAt (a b : Option Char) : Bool :=
  (match a with | none => false | some c => isWordChar c) !=
    (match b with | none => false | some c => isWordChar c)

/-- Fuelled scanner for the global case-insensitive whole-word replacement
`replace(new RegExp('\\b' + t + '\\b', 'gi'), rep)`; `prev` is the character
before the scan position. -/
def replaceWordCIAux (t rep : List Char) : Nat → Option Char → List Char → List Char
  | 0, _, s => s
  | _ + 1, _, [] => []
  | fuel + 1, prev, c :: rest =>
    if ciAt t (c :: rest) && boundaryAt prev (some c) &&
        boundaryAt ((c :: rest).take t.length).getLast? ((c :: rest).drop t.length).head? then
      rep ++ replaceWordCIAux t rep fuel ((c :: rest).take t.length).getLast?
        ((c :: rest).drop t.length)
    else
      c :: replaceWordCIAux t rep fuel (some c) rest

/-- Global case-insensitive whole-word replacement. -/
def replaceWordCI (t rep s : List Char) : List Char :=
  if t.isEmpty then s else replaceWordCIAux t rep s.length none s

/-- QueryRefiner.fixSemanticErrors (part_000, lines 398-433): for each error
naming an unknown table or column in quotes, substitute the closest schema
candidate as a whole word.  (Unreachable from refineQuery because
validateSemantics reports no errors, but part of the class surface.) -/
def fixSemanticErrorsL (kql : List Char) (errors : List String) (schema : QuerySchema) :
    List Char :=
  errors.foldl
    (fun fixed err =>
      let ec := err.toList
      let afterTable :=
        if containsSub "Table".toList ec && containsSub "not found".toList ec then
          match firstQuoted ec with
          | some invalidTable =>
            match findClosestMatch invalidTable (schema.tables.map String.toList) with
            | some closest => replaceWordCI invalidTable closest fixed
            | none => fixed
          | none => fixed
        else fixed
      if containsSub "Column".toList ec && containsSub "not found".toList ec then
        match firstQuoted ec with
        | some invalidColumn =>
          match findClosestMatch invalidColumn (schema.columns.map String.toList) with
          | some closest => replaceWordCI invalidColumn closest afterTable
          | none => afterTable
        | none => afterTable
      else afterTable)
    kql

/-- The fixed attempt cap of QueryRefiner. -/
def maxAttempts : Nat := 3

/-- The while loop of QueryRefiner.refineQuery (part_000, lines 207-238),
compiled to structural recursion on the remaining fuel
`maxAttempts - attempts`; the loop guard `attempts < maxAttempts` holds
exactly when the fuel is positive. -/
def refineLoop (schema : Option QuerySchema) :
    Nat → List Char → List String → List String → Nat → RefinementResult
  | 0, query, errors, fixes, attempts =>
    ⟨query, errors.isEmpty, errors, fixes, attempts⟩
  | fuel + 1, query, errors, fixes, attempts =>
    let syntaxErrors := validateSyntaxL query
    if syntaxErrors.length > 0 then
      refineLoop schema fuel (fixSyntaxErrorsL query syntaxErrors) (errors ++ syntaxErrors)
        (fixes ++ ["Fixed syntax errors: " ++ String.intercalate ", " syntaxErrors])
        (attempts + 1)
    else
      match schema with
      | some sch =>
        let semanticErrors := validateSemanticsL query sch
        if semanticErrors.length > 0 then
          refineLoop schema fuel (fixSemanticErrorsL query semanticErrors sch)
            (errors ++ semanticErrors)
            (fixes ++ ["Fixed semantic errors: " ++ String.intercalate ", " semanticErrors])
            (attempts + 1)
        else ⟨query, true, [], fixes, attempts⟩
      | none => ⟨query, true, [], fixes, attempts⟩

/-- QueryRefiner.refineQuery (part_000, lines 201-248). -/
def refineQuery (kql : List Char) (schema : Option QuerySchema) : RefinementResult :=
  refineLoop schema maxAttempts (trim kql) [] [] 0

/-!  ## Schema Refiner (src/src/engine/schema-refiner.ts)  -/

/-- Column of a table schema (src/src/types/schema.ts). -/
structure ColumnSchema where
  name : String
  type : String
  description : Option String
deriving DecidableEq

/-- Table of a database schema (src/src/types/schema.ts). -/
structure TableSchema where
  name : String
  description : Option String
  columns : List ColumnSchema
  domain : Option (List String)
deriving DecidableEq

/-- Full database schema (src/src/types/schema.ts). -/
structure DatabaseSchema where
  database : String
  tables : List TableSchema
deriving DecidableEq

/-- Reduced schema view returned by SchemaRefiner (src/src/types/schema.ts). -/
structure RefinedSchema where
  tables : List TableSchema
  columns : List ColumnSchema
  relevance : Rat
deriving DecidableEq

/-- The fixed domain vocabulary of SchemaRefiner.extractEntities
(schema-refiner.ts, lines 43-49). -/
def domainTerms : List (List Char) :=
  ["security".toList, "event".toList, "log".toList, "authentication".toList,
    "authorization".toList, "user".toList, "account".toList, "login".toList,
    "failed".toList, "success".toList, "error".toList, "process".toList,
    "file".toList, "network".toList, "connection".toList, "threat".toList,
    "malware".toList, "device".toList, "computer".toList, "server".toList,
    "client".toList, "ip".toList, "port".toList, "time".toList, "date".toList,
    "hour".toList, "day".toList, "week".toList, "month".toList, "last".toList,
    "ago".toList]

/-- State-machine scanner for the global regex quoted-substring match (a
quote, one-or-more non-quotes, a closing quote); the state holds the reversed
body accumulated since the opening quote, if inside a candidate match. -/
def allQuotedAux : Option (List Char) → List Char → List (List Char)
  | _, [] => []
  | none, c :: rest =>
    if c = dquote then allQuotedAux (some []) rest else allQuotedAux none rest
  | some acc, c :: rest =>
    if c = dquote then
      if acc.isEmpty then allQuotedAux (some []) rest
      else acc.reverse :: allQuotedAux none rest
    else allQuotedAux (some (c :: acc)) rest

/-- All quoted substrings of the text, quotes stripped, in match order. -/
def allQuoted (s : List Char) : List (List Char) := allQuotedAux none s

/-- Longest run of ASCII lowercase letters at the front, plus the rest. -/
def lowerRun : List Char → List Char × List Char
  | [] => ([], [])
  | c :: rest =>
    if isLowerA c then
      let p := lowerRun rest
      (c :: p.1, p.2)
    else ([], c :: rest)

/-- Is the optional neighbouring character absent or a non-word character? -/
def nonWordO : Option Char → Bool
  | none => true
  | some c => !isWordChar c

/-- Fuelled scanner for the global regex capitalized-word match (a word
boundary, an uppercase letter, one-or-more lowercase letters, a word
boundary); `prev` is the character before the scan position. -/
def capWordsAux : Nat → Option Char → List Char → List (List Char)
  | 0, _, _ => []
  | _ + 1, _, [] => []
  | fuel + 1, prev, c :: rest =>
    if nonWordO prev && isUpperA c then
      let p := lowerRun rest
      if 1 ≤ p.1.length && nonWordO p.2.head? then
        (c :: p.1) :: capWordsAux fuel p.1.getLast? p.2
      else capWordsAux fuel (some c) rest
    else capWordsAux fuel (some c) rest

/-- All capitalized words of the text, in match order. -/
def capWords (s : List Char) : List (List Char) := capWordsAux s.length none s

/-- SchemaRefiner.extractEntities (schema-refiner.ts, lines 38-78): domain
vocabulary hits on the lowercased question, quoted substrings (quotes
stripped), and lowercased capitalized words longer than three characters,
deduplicated keeping first occurrences. -/
def extractEntities (nlq : List Char) : List (List Char) :=
  let lowerQuery := toLowerL nlq
  let entities :=
    domainTerms.filter (fun term => containsSub term lowerQuery) ++
      allQuoted nlq ++
      (capWords nlq).filterMap
        (fun word => if word.length > 3 then some (toLowerL word) else none)
  dedupFirst entities

/-- SchemaRefiner.matchTables (schema-refiner.ts, lines 83-126): accumulate
10 points per entity contained in (or containing) the table name, 5 per
entity contained in the description, 3 per domain tag equal to an entity, 2
per entity contained in a column name. -/
def matchTables (entities : List (List Char)) (tables : List TableSchema) :
    List (TableSchema × Nat) :=
  tables.map (fun table =>
    let tableNameLower := toLowerL table.name.toList
    let s1 := entities.foldl
      (fun s entity =>
        if containsSub entity tableNameLower || containsSub tableNameLower entity then
          s + 10
        else s) 0
    let s2 :=
      match table.description with
      | some d =>
        if d.isEmpty then s1
        else
          let descLower := toLowerL d.toList
          entities.foldl (fun s entity => if containsSub entity descLower then s + 5 else s) s1
      | none => s1
    let s3 :=
      match table.domain with
      | some doms =>
        doms.foldl (fun s dm => if entities.contains (toLowerL dm.toList) then s + 3 else s) s2
      | none => s2
    let s4 := table.columns.foldl
      (fun s column =>
        let colNameLower := toLowerL column.name.toList
        entities.foldl (fun t entity => if containsSub entity colNameLower then t + 2 else t) s)
      s3
    (table, s4))

/-- SchemaRefiner.matchColumns (schema-refiner.ts, lines 131-159): flatten
all columns and accumulate 5 points per entity contained in (or containing)
the column name and 3 per entity contained in the description. -/
def matchColumns (entities : List (List Char)) (tables : List TableSchema) :
    List (ColumnSchema × Nat) :=
  (tables.map (fun table =>
    table.columns.map (fun column =>
      let colNameLower := toLowerL column.name.toList
      let s1 := entities.foldl
        (fun s entity =>
          if containsSub entity colNameLower || containsSub colNameLower entity then s + 5
          else s) 0
      let s2 :=
        match column.description with
        | some d =>
          if d.isEmpty then s1
          else
            let descLower := toLowerL d.toList
            entities.foldl (fun s entity => if containsSub entity descLower then s + 3 else s) s1
        | none => s1
      (column, s2)))).flatten

/-- The score of the first element of a ranked list, 0 when the list is
empty: the reading of the source expression `list[0]?.score || 0` (a score of
0 is mapped to 0 by the or-default as well). -/
def topScore {α : Type} (l : List (α × Nat)) : Nat := (l.head?.map Prod.snd).getD 0

/-- SchemaRefiner.rankByRelevance (schema-refiner.ts, lines 164-168): drop
zero scores, stable sort descending by score. -/
def rankByRelevance {α : Type} (ms : List (α × Nat)) : List (α × Nat) :=
  sortDesc (ms.filter (fun m => m.2 > 0))

/-- SchemaRefiner.selectTopK (schema-refiner.ts, lines 173-175). -/
def selectTopK {α : Type} (ranked : List (α × Nat)) (k : Nat) : List (α × Nat) :=
  ranked.take k

/-- SchemaRefiner.computeOverallRelevance (schema-refiner.ts, lines 180-187):
average of the first listed table score and the first listed column score,
each defaulting to 0 when its list is empty. -/
def computeOverallRelevance (tableMatches : List (TableSchema × Nat))
    (columnMatches : List (ColumnSchema × Nat)) : Rat :=
  let topTableScore : Nat := topScore tableMatches
  let topColumnScore : Nat := topScore columnMatches
  ((topTableScore + topColumnScore : Nat) : Rat) / 2

/-- SchemaRefiner.refineSchema (schema-refiner.ts, lines 12-33). -/
def refineSchema (nlq : List Char) (fullSchema : DatabaseSchema) : RefinedSchema :=
  let entities := extractEntities nlq
  let tableMatches := matchTables entities fullSchema.tables
  let columnMatches := matchColumns entities fullSchema.tables
  let rankedTables := rankByRelevance tableMatches
  let rankedColumns := rankByRelevance columnMatches
  let topTables := selectTopK rankedTables 5
  let topColumns := selectTopK rankedColumns 20
  { tables := topTables.map Prod.fst
    columns := topColumns.map Prod.fst
    relevance := computeOverallRelevance rankedTables rankedColumns }

/-!  ## Few-shot Selector (src/src/engine/few-shot-selector.ts)  -/

/-- A stored translation example (src/src/types/schema.ts). -/
structure Example where
  nlq : List Char
  kql : List Char
  database : String
  tags : Option (List String)
deriving DecidableEq

/-- JavaScript `split(/\s+/)`: split on maximal whitespace runs; a leading or
trailing run yields an empty piece. -/
def splitWs : List Char → List (List Char)
  | [] => [[]]
  | c :: rest =>
    if isWs c then
      match rest with
      | d :: _ => if isWs d then splitWs rest else [] :: splitWs rest
      | [] => [] :: splitWs rest
    else
      match splitWs rest with
      | [] => [[c]]
      | x :: xs => (c :: x) :: xs

/-- FewShotSelector.tokenize (few-shot-selector.ts, lines 81-87): lowercase,
replace non-word non-space characters by spaces, split on whitespace, keep
tokens longer than two characters. -/
def tokenize (text : List Char) : List (List Char) :=
  (splitWs ((toLowerL text).map (fun c => if isWordChar c || isWs c then c else ' '))).filter
    (fun w => w.length > 2)

/-- FewShotSelector.computeSimilarity (few-shot-selector.ts, lines 58-76):
the token-overlap count over the deduplicated union size, plus a 0.3 boost
when either full lowercased string contains the other, clamped at 1. -/
def computeSimilarity (nlq1 nlq2 : List Char) : Rat :=
  let words1 := tokenize nlq1
  let words2 := tokenize nlq2
  let intersection := words1.filter (fun w => words2.contains w)
  let uni := dedupFirst (words1 ++ words2)
  if uni.length = 0 then 0
  else
    let jaccard : Rat := ((intersection.length : Nat) : Rat) / ((uni.length : Nat) : Rat)
    let exactMatch := containsSub (toLowerL nlq2) (toLowerL nlq1) ||
      containsSub (toLowerL nlq1) (toLowerL nlq2)
    let exactMatchBoost : Rat := if exactMatch then 3 / 10 else 0
    min 1 (jaccard + exactMatchBoost)

/-- The similarity metric as the specification words it: Jaccard similarity
computed over the two token SETS, with the count of distinct shared tokens
in the numerator, then the same substring boost and clamp as the source. -/
def specSimilarity (nlq1 nlq2 : List Char) : Rat :=
  let set1 := dedupFirst (tokenize nlq1)
  let set2 := dedupFirst (tokenize nlq2)
  let intersection := set1.filter (fun w => set2.contains w)
  let uni := dedupFirst (set1 ++ set2)
  if uni.length = 0 then 0
  else
    let jaccard : Rat := ((intersection.length : Nat) : Rat) / ((uni.length : Nat) : Rat)
    let exactMatch := containsSub (toLowerL nlq2) (toLowerL nlq1) ||
      containsSub (toLowerL nlq1) (toLowerL nlq2)
    let exactMatchBoost : Rat := if exactMatch then 3 / 10 else 0
    min 1 (jaccard + exactMatchBoost)

/-- FewShotSelector.selectExamples (few-shot-selector.ts, lines 19-38),
with the instance's example corpus passed explicitly. -/
def selectExamples (examples : List Example) (nlq : List Char) (database : Option String)
    (k : Nat) : List Example :=
  let candidateExamples : List Example :=
    match database with
    | some db => examples.filter (fun ex => ex.database = db)
    | none => examples
  let scored := candidateExamples.map (fun ex => (ex, computeSimilarity nlq ex.nlq))
  ((sortDesc scored).take k).map Prod.fst

/-!  ## Engine orchestration (src/unnamed/part_000, class NL2KQLEngine)  -/

/-- Result of the external generation call (src/src/engine/llm-client.ts). -/
structure LLMResponse where
  content : List Char
  tokensUsed : Option Nat
  finishReason : Option String
deriving DecidableEq

/-- Conversion request (src/src/types/nl2kql.ts). -/
structure NL2KQLRequest where
  query : List Char
  database : Option String
  cluster : Option String
deriving DecidableEq

/-- The metadata block of a conversion response (src/src/types/nl2kql.ts). -/
structure ResponseMetadata where
  tokensUsed : Option Nat
  responseTime : Option Nat
  confidence : Option Rat
deriving DecidableEq

/-- Conversion response (src/src/types/nl2kql.ts); absent optional fields are
`none`. -/
structure NL2KQLResponse where
  success : Bool
  kql : Option (List Char)
  error : Option String
  refinedSchema : Option QuerySchema
  examplesUsed : Option Nat
  refinements : Option Nat
  metadata : Option ResponseMetadata
deriving DecidableEq

/-- The three pipeline steps NL2KQLEngine.convert sequences before the local
query-refinement step.  Each is modelled as a function that either returns
its value or fails with a message (the model of a thrown exception caught by
the orchestrator's try/catch).  The faithful pure instantiations of the
first two are `fun q s => Except.ok (refineSchema q s)` and
`fun q db k => Except.ok (selectExamples corpus q db k)`; the generation step
is the external collaborator. -/
structure EngineOps where
  refineSchemaStep : List Char → DatabaseSchema → Except String RefinedSchema
  selectExamplesStep : List Char → Option String → Nat → Except String (List Example)
  generateKQLStep : List Char → QuerySchema → List (List Char × List Char) →
    Except String LLMResponse

/-- The catch-branch of NL2KQLEngine.convert (part_000, lines 86-94): a
failure result carrying only the error message and the elapsed time. -/
def failureResponse (msg : String) (elapsed : Nat) : NL2KQLResponse :=
  { success := false
    kql := none
    error := some msg
    refinedSchema := none
    examplesUsed := none
    refinements := none
    metadata := some { tokensUsed := none, responseTime := some elapsed, confidence := none } }

/-- NL2KQLEngine.convert (part_000, lines 33-95): refine the schema, select
the examples, call the generator, refine the returned query, and assemble the
response; any step failure is caught and converted to a failure response.
`startTime` and `now` model the two Date.now() readings. -/
def convert (ops : EngineOps) (defaultSchema : DatabaseSchema) (request : NL2KQLRequest)
    (startTime now : Nat) : NL2KQLResponse :=
  match ops.refineSchemaStep request.query defaultSchema with
  | .error e => failureResponse e (now - startTime)
  | .ok refined =>
    match ops.selectExamplesStep request.query request.database 3 with
    | .error e => failureResponse e (now - startTime)
    | .ok examples =>
      let names : QuerySchema :=
        { tables := refined.tables.map TableSchema.name
          columns := refined.columns.map ColumnSchema.name }
      match ops.generateKQLStep request.query names
          (examples.map (fun ex => (ex.nlq, ex.kql))) with
      | .error e => failureResponse e (now - startTime)
      | .ok llmResponse =>
        let refinementResult := refineQuery llmResponse.content (some names)
        { success := refinementResult.isValid
          kql := some refinementResult.query
          error := none
          refinedSchema := some names
          examplesUsed := some examples.length
          refinements := some refinementResult.attempts
          metadata := some
            { tokensUsed := llmResponse.tokensUsed
              responseTime := some (now - startTime)
              confidence := some (if refinementResult.isValid then (9 : Rat) / 10
                else (7 : Rat) / 10) } }

/-!  ## Vocabulary for the statements and proofs  -/

/-- The maximal score occurring in a match list (0 when empty). -/
def maxScore {α : Type} (l : List (α × Nat)) : Nat := l.foldr (fun p m => max p.2 m) 0

/-- The first character, if any, is not whitespace. -/
def HeadOK (s : List Char) : Prop := ∀ c, s.head? = some c → isWs c = false

/-- The last character, if any, is not whitespace. -/
def LastOK (s : List Char) : Prop := ∀ c, s.getLast? = some c → isWs c = false

/-!  ## Helper lemmas: the refinement loop  -/

theorem refineLoop_attempts_le (schema : Option QuerySchema) (fuel : Nat) :
    ∀ q errors fixes attempts,
      (refineLoop schema fuel q errors fixes attempts).attempts ≤ attempts + fuel := by
  induction fuel with
  | zero => intro q e f a; simp [refineLoop]
  | succ n ih =>
    intro q e f a
    simp only [refineLoop]
    split
    · exact le_trans (ih ..) (by omega)
    · cases schema with
      | none => simp
      | some sch => simp [validateSemanticsL]

theorem refineLoop_schema_irrelevant (s1 s2 : Option QuerySchema) (fuel : Nat) :
    ∀ q errors fixes attempts,
      refineLoop s1 fuel q errors fixes attempts =
        refineLoop s2 fuel q errors fixes attempts := by
  induction fuel with
  | zero => intros; rfl
  | succ n ih =>
    intro q e f a
    simp only [refineLoop]
    split
    · exact ih ..
    · cases s1 <;> cases s2 <;> simp [validateSemanticsL]

theorem refineLoop_valid_shape (schema : Option QuerySchema) (fuel : Nat) :
    ∀ q errors fixes attempts, attempts + fuel = 3 → (errors = [] ↔ attempts = 0) →
      ((refineLoop schema fuel q errors fixes attempts).isValid = false ↔
        (refineLoop schema fuel q errors fixes attempts).attempts = 3) ∧
      ((refineLoop schema fuel q errors fixes attempts).isValid = false →
        (refineLoop schema fuel q errors fixes attempts).errors ≠ []) ∧
      ((refineLoop schema fuel q errors fixes attempts).isValid = true →
        (refineLoop schema fuel q errors fixes attempts).errors = []) := by
  induction fuel with
  | zero =>
    intro q e f a ha he
    have hne : e ≠ [] := by
      intro h
      have := he.mp h
      omega
    have hempty : e.isEmpty = false := by
      cases e with
      | nil => exact absurd rfl hne
      | cons x xs => rfl
    refine ⟨?_, ?_, ?_⟩
    · simp [refineLoop, hempty]
      omega
    · intro _
      simpa [refineLoop] using hne
    · intro h
      simp [refineLoop, hempty] at h
  | succ n ih =>
    intro q e f a ha he
    simp only [refineLoop]
    split
    · rename_i hguard
      have hse : validateSyntaxL q ≠ [] := by
        intro h0
        rw [h0] at hguard
        simp at hguard
      exact ih _ _ _ _ (by omega)
        (by
          constructor
          · intro h0
            exact absurd (List.append_eq_nil.mp h0).2 hse
          · intro h0
            omega)
    · cases schema with
      | none =>
        refine ⟨by simp; omega, by simp, by simp⟩
      | some sch =>
        simp only [validateSemanticsL, List.length_nil, gt_iff_lt, lt_self_iff_false, if_false]
        refine ⟨by simp; omega, by simp, by simp⟩

/-!  ## The claims about the refinement loop  -/

/-- C1: for every input query string and every schema argument,
QueryRefiner.refineQuery terminates (it is a total function of this
development) and the attempts counter in its result never exceeds the fixed
maximum of 3, even when structural errors remain. -/
theorem claim_C1 (kql : List Char) (schema : Option QuerySchema) :
    (refineQuery kql schema).attempts ≤ 3 := by
  simpa [refineQuery, maxAttempts] using
    refineLoop_attempts_le schema maxAttempts (trim kql) [] [] 0

/-- C9: the result of QueryRefiner.refineQuery is independent of its schema
argument: any two schema arguments (including an omitted one, `none`) produce
identical results, because the semantic validation returns an empty error
list for every input and its computed warnings are discarded. -/
theorem claim_C9 (kql : List Char) (s1 s2 : Option QuerySchema) :
    refineQuery kql s1 = refineQuery kql s2 :=
  refineLoop_schema_irrelevant s1 s2 maxAttempts (trim kql) [] [] 0

/-- C10: for every input string and schema, the result of
QueryRefiner.refineQuery satisfies: isValid = false exactly when the attempts
counter equals the maximum 3; a false isValid comes with a non-empty error
list; a true isValid comes with an empty error list. -/
theorem claim_C10 (kql : List Char) (schema : Option QuerySchema) :
    ((refineQuery kql schema).isValid = false ↔ (refineQuery kql schema).attempts = 3) ∧
      ((refineQuery kql schema).isValid = false → (refineQuery kql schema).errors ≠ []) ∧
      ((refineQuery kql schema).isValid = true → (refineQuery kql schema).errors = []) :=
  refineLoop_valid_shape schema maxAttempts (trim kql) [] [] 0 rfl (by simp)

/-- Witness for C10 at a concrete unrepairable input (10 stray closing
parentheses): the exhausted run indeed reports a non-empty error list, and an
immediately-valid input reports an empty one. -/
theorem claim_C10_witness :
    (refineQuery (List.replicate 10 ')') none).errors ≠ [] ∧
      (refineQuery "count".toList none).errors = [] :=
  ⟨(claim_C10 (List.replicate 10 ')') none).2.1 (by decide),
    (claim_C10 "count".toList none).2.2 (by decide)⟩

/-!  ## Helper lemmas: ranking  -/

theorem mem_insertDesc {α β : Type} [LinearOrder β] {y x : α × β} :
    ∀ {l : List (α × β)}, y ∈ insertDesc x l → y = x ∨ y ∈ l := by
  intro l
  induction l with
  | nil => intro h; simpa [insertDesc] using h
  | cons z zs ih =>
    intro h
    simp only [insertDesc] at h
    split at h
    · rcases List.mem_cons.mp h with h1 | h1
      · exact Or.inr (List.mem_cons.mpr (Or.inl h1))
      · rcases ih h1 with h2 | h2
        · exact Or.inl h2
        · exact Or.inr (List.mem_cons.mpr (Or.inr h2))
    · rcases List.mem_cons.mp h with h1 | h1
      · exact Or.inl h1
      · exact Or.inr h1

theorem mem_sortDesc {α β : Type} [LinearOrder β] {y : α × β} :
    ∀ {l : List (α × β)}, y ∈ sortDesc l → y ∈ l := by
  intro l
  induction l with
  | nil => intro h; simpa [sortDesc] using h
  | cons z zs ih =>
    intro h
    have h1 : y ∈ insertDesc z (sortDesc zs) := h
    rcases mem_insertDesc h1 with h2 | h2
    · exact List.mem_cons.mpr (Or.inl h2)
    · exact List.mem_cons.mpr (Or.inr (ih h2))

theorem mem_rankByRelevance {α : Type} {y : α × Nat} {ms : List (α × Nat)}
    (h : y ∈ rankByRelevance ms) : y ∈ ms :=
  List.filter_subset' ms (mem_sortDesc h)

/-!  ## The claims about schema reduction (caps and membership)  -/

/-- C6: for every question and Schema, regardless of schema size, the
RefinedSchema returned by SchemaRefiner.refineSchema contains at most 5
tables and at most 20 columns. -/
theorem claim_C6 (nlq : List Char) (schema : DatabaseSchema) :
    (refineSchema nlq schema).tables.length ≤ 5 ∧
      (refineSchema nlq schema).columns.length ≤ 20 := by
  constructor
  · simpa [refineSchema, selectTopK] using
      List.length_take_le 5 (rankByRelevance (matchTables (extractEntities nlq) schema.tables))
  · simpa [refineSchema, selectTopK] using
      List.length_take_le 20 (rankByRelevance (matchColumns (extractEntities nlq) schema.tables))

/-- C5: every table in the RefinedSchema returned by
SchemaRefiner.refineSchema is an element of the source Schema's table list,
and every column is an element of some source table's column list; nothing
is fabricated. -/
theorem claim_C5 (nlq : List Char) (schema : DatabaseSchema) :
    (∀ t ∈ (refineSchema nlq schema).tables, t ∈ schema.tables) ∧
      ∀ c ∈ (refineSchema nlq schema).columns, ∃ t ∈ schema.tables, c ∈ t.columns := by
  constructor
  · intro t ht
    simp only [refineSchema, selectTopK, List.mem_map] at ht
    obtain ⟨p, hp, hpt⟩ := ht
    have hp2 : p ∈ rankByRelevance (matchTables (extractEntities nlq) schema.tables) :=
      List.take_subset _ _ hp
    have hp3 := mem_rankByRelevance hp2
    simp only [matchTables, List.mem_map] at hp3
    obtain ⟨tbl, htbl, htp⟩ := hp3
    have : p.1 = tbl := by rw [← htp]
    rw [← hpt, this]
    exact htbl
  · intro c hc
    simp only [refineSchema, selectTopK, List.mem_map] at hc
    obtain ⟨p, hp, hpc⟩ := hc
    have hp2 : p ∈ rankByRelevance (matchColumns (extractEntities nlq) schema.tables) :=
      List.take_subset _ _ hp
    have hp3 := mem_rankByRelevance hp2
    simp only [matchColumns, List.mem_flatten, List.mem_map] at hp3
    obtain ⟨inner, ⟨tbl, htbl, hinner⟩, hpin⟩ := hp3
    rw [← hinner] at hpin
    simp only [List.mem_map] at hpin
    obtain ⟨col, hcol, hcp⟩ := hpin
    refine ⟨tbl, htbl, ?_⟩
    have : p.1 = col := by rw [← hcp]
    rw [← hpc, this]
    exact hcol

/-- Witness for C5 at a concrete question and schema: the selected table is
one of the source tables, and the selected column belongs to it. -/
theorem claim_C5_witness :
    (⟨"SecurityEvent", none,
        [⟨"Account", "string", none⟩], some ["security"]⟩ : TableSchema) ∈
      (⟨"DB", [⟨"SecurityEvent", none, [⟨"Account", "string", none⟩],
        some ["security"]⟩]⟩ : DatabaseSchema).tables ∧
      ∃ t ∈ (⟨"DB", [⟨"SecurityEvent", none, [⟨"Account", "string", none⟩],
          some ["security"]⟩]⟩ : DatabaseSchema).tables,
        (⟨"Account", "string", none⟩ : ColumnSchema) ∈ t.columns :=
  ⟨(claim_C5 "security account".toList _).1 _ (by decide),
    (claim_C5 "security account".toList _).2 _ (by decide)⟩

/-!  ## Helper lemmas: top score of the ranking  -/

theorem topScore_cons {α : Type} (y : α × Nat) (l : List (α × Nat)) :
    topScore (y :: l) = y.2 := rfl

theorem maxScore_cons {α : Type} (y : α × Nat) (l : List (α × Nat)) :
    maxScore (y :: l) = max y.2 (maxScore l) := rfl

theorem topScore_insertDesc {α : Type} (x : α × Nat) :
    ∀ l : List (α × Nat), topScore (insertDesc x l) = max x.2 (topScore l) := by
  intro l
  cases l with
  | nil => simp [insertDesc, topScore]
  | cons y ys =>
    simp only [insertDesc]
    split
    · rename_i hgt
      rw [topScore_cons, topScore_cons]
      omega
    · rename_i hle
      rw [topScore_cons, topScore_cons]
      omega

theorem topScore_sortDesc {α : Type} :
    ∀ l : List (α × Nat), topScore (sortDesc l) = maxScore l := by
  intro l
  induction l with
  | nil => simp [sortDesc, topScore, maxScore]
  | cons x xs ih =>
    have h1 : sortDesc (x :: xs) = insertDesc x (sortDesc xs) := rfl
    rw [h1, topScore_insertDesc, ih, maxScore_cons]

theorem maxScore_filter_pos {α : Type} :
    ∀ l : List (α × Nat), maxScore (l.filter (fun m => m.2 > 0)) = maxScore l := by
  intro l
  induction l with
  | nil => rfl
  | cons x xs ih =>
    by_cases hx : x.2 > 0
    · rw [List.filter_cons_of_pos (by simpa using hx), maxScore_cons, maxScore_cons, ih]
    · rw [List.filter_cons_of_neg (by simpa using hx), maxScore_cons, ih]
      omega

theorem topScore_rankByRelevance {α : Type} (ms : List (α × Nat)) :
    topScore (rankByRelevance ms) = maxScore ms := by
  rw [rankByRelevance, topScore_sortDesc, maxScore_filter_pos]

/-!  ## C2: the overall relevance score  -/

/-- C2 as stated is false: when exactly one of the two ranked lists is empty
the relevance is half the other top score, not 0.  Concrete input: question
"security" against a one-table schema whose only column "x" matches no
entity: the ranked column list is empty (the refined column list shows it),
yet the relevance is 10/2 = 5, not 0. -/
theorem claim_C2_counterexample :
    (refineSchema "security".toList
        ⟨"D", [⟨"security", none, [⟨"x", "string", none⟩], none⟩]⟩).columns = [] ∧
      (refineSchema "security".toList
        ⟨"D", [⟨"security", none, [⟨"x", "string", none⟩], none⟩]⟩).relevance ≠ 0 := by
  constructor
  · decide
  · have h1 : topScore (rankByRelevance (matchTables
        (extractEntities "security".toList)
        (⟨"D", [⟨"security", none, [⟨"x", "string", none⟩], none⟩]⟩ :
          DatabaseSchema).tables)) = 10 := by decide
    have h2 : topScore (rankByRelevance (matchColumns
        (extractEntities "security".toList)
        (⟨"D", [⟨"security", none, [⟨"x", "string", none⟩], none⟩]⟩ :
          DatabaseSchema).tables)) = 0 := by decide
    simp only [refineSchema, computeOverallRelevance, h1, h2]
    norm_num

/-- C2 amended: the relevance field equals half the sum of the top-ranked
table score and the top-ranked column score, where an empty ranked list
contributes 0 — equivalently (top of the descending ranking being the
maximum) half the sum of the maximal table score and the maximal column
score; it is 0 only when both contributions are 0. -/
theorem claim_C2_amended (nlq : List Char) (schema : DatabaseSchema) :
    (refineSchema nlq schema).relevance =
      ((maxScore (matchTables (extractEntities nlq) schema.tables) +
        maxScore (matchColumns (extractEntities nlq) schema.tables) : Nat) : Rat) / 2 := by
  simp only [refineSchema, computeOverallRelevance, topScore_rankByRelevance]

/-!  ## Helper lemmas: lowercasing and deduplication  -/

theorem lowerChar_toNat (c : Char) :
    (lowerChar c).toNat = if 65 ≤ c.toNat ∧ c.toNat ≤ 90 then c.toNat + 32 else c.toNat := by
  unfold lowerChar
  split
  · rename_i h
    have hadd : (c.val + 32).toNat = (c.val.toNat + 32) % 2 ^ 32 := rfl
    have hc : c.toNat = c.val.toNat := rfl
    show (c.val + 32).toNat = c.toNat + 32
    rw [hadd]
    omega
  · rfl

theorem isUpperA_lowerChar (c : Char) : isUpperA (lowerChar c) = false := by
  have h := lowerChar_toNat c
  unfold isUpperA
  by_cases hc : 65 ≤ c.toNat ∧ c.toNat ≤ 90
  · rw [if_pos hc] at h
    rw [h]
    simp only [Bool.and_eq_false_iff, decide_eq_false_iff_not, not_le]
    omega
  · rw [if_neg hc] at h
    rw [h]
    simp only [Bool.and_eq_false_iff, decide_eq_false_iff_not, not_le]
    omega

theorem lowerChar_eq_self {c : Char} (h : ¬(65 ≤ c.toNat ∧ c.toNat ≤ 90)) :
    lowerChar c = c :=
  dif_neg h

theorem lowerChar_idem (c : Char) : lowerChar (lowerChar c) = lowerChar c := by
  apply lowerChar_eq_self
  have h := isUpperA_lowerChar c
  unfold isUpperA at h
  simp only [Bool.and_eq_false_iff, decide_eq_false_iff_not, not_le] at h
  omega

theorem toLowerL_idem (s : List Char) : toLowerL (toLowerL s) = toLowerL s := by
  induction s with
  | nil => rfl
  | cons c cs ih =>
    simp only [toLowerL, List.map_cons] at *
    rw [lowerChar_idem]
    exact congrArg _ ih

theorem mem_dedupFirst {α : Type} [DecidableEq α] {a : α} {l : List α} :
    a ∈ dedupFirst l ↔ a ∈ l := by
  simp [dedupFirst, List.mem_dedup]

theorem nodup_dedupFirst {α : Type} [DecidableEq α] (l : List α) :
    (dedupFirst l).Nodup := by
  simpa [dedupFirst] using List.nodup_dedup l.reverse

theorem dedupFirst_eq_self {α : Type} [DecidableEq α] {l : List α} (h : l.Nodup) :
    dedupFirst l = l := by
  rw [dedupFirst, List.Nodup.dedup (by simpa using h), List.reverse_reverse]

theorem toFinset_dedupFirst {α : Type} [DecidableEq α] (l : List α) :
    (dedupFirst l).toFinset = l.toFinset := by
  ext a
  simp [List.mem_toFinset, mem_dedupFirst]

theorem length_dedupFirst {α : Type} [DecidableEq α] (l : List α) :
    (dedupFirst l).length = l.toFinset.card := by
  rw [← toFinset_dedupFirst, List.toFinset_card_of_nodup (nodup_dedupFirst l)]

/-!  ## C4: entity extraction  -/

/-- C4 as stated is false: entities obtained from quoted substrings keep
their original casing (the source pushes the stripped match of the original,
non-lowercased question).  At the concrete question containing the quoted
name TBL, the entity TBL is returned and is not a lowercase string. -/
theorem claim_C4_counterexample :
    "TBL".toList ∈ extractEntities ("see ".toList ++ dquote :: "TBL".toList ++ [dquote]) ∧
      toLowerL "TBL".toList ≠ "TBL".toList := by
  constructor
  · decide
  · decide

/-- C4 amended: entity extraction returns a duplicate-free list in which
every entity either is fixed by lowercasing (this covers the domain-term and
capitalized-word entities) or is a quoted substring of the question, kept
verbatim with its quotes stripped. -/
theorem claim_C4_amended (nlq : List Char) :
    (extractEntities nlq).Nodup ∧
      ∀ e ∈ extractEntities nlq, toLowerL e = e ∨ e ∈ allQuoted nlq := by
  constructor
  · exact nodup_dedupFirst _
  · intro e he
    rw [extractEntities] at he
    have he2 := mem_dedupFirst.mp he
    rcases List.mem_append.mp he2 with h12 | h3
    · rcases List.mem_append.mp h12 with h1 | h2
      · left
        have hd : e ∈ domainTerms := List.filter_subset' _ h1
        have hall : ∀ t ∈ domainTerms, toLowerL t = t := by decide
        exact hall e hd
      · right
        exact h2
    · left
      simp only [List.mem_filterMap] at h3
      obtain ⟨w, _, hw⟩ := h3
      by_cases hlen : w.length > 3
      · rw [if_pos hlen] at hw
        rw [← Option.some_inj.mp hw]
        exact toLowerL_idem w
      · rw [if_neg hlen] at hw
        exact absurd hw (by simp)

/-- Witness for C4 (amended) at a concrete question: the entity extracted
from the domain vocabulary is fixed by lowercasing. -/
theorem claim_C4_amended_witness :
    toLowerL "user".toList = "user".toList ∨
      "user".toList ∈ allQuoted "list user names".toList :=
  (claim_C4_amended "list user names".toList).2 "user".toList (by decide)

/-!  ## C3: the few-shot similarity metric  -/

theorem contains_dedupFirst {α : Type} [DecidableEq α] [BEq α] [LawfulBEq α]
    (l : List α) (a : α) :
    (dedupFirst l).contains a = l.contains a := by
  show (dedupFirst l).elem a = l.elem a
  by_cases h : a ∈ l
  · rw [List.elem_eq_true_of_mem (mem_dedupFirst.mpr h), List.elem_eq_true_of_mem h]
  · have h1 : (dedupFirst l).elem a = false := by
      rw [Bool.eq_false_iff]
      intro hc
      exact h (mem_dedupFirst.mp (List.mem_of_elem_eq_true hc))
    have h2 : l.elem a = false := by
      rw [Bool.eq_false_iff]
      intro hc
      exact h (List.mem_of_elem_eq_true hc)
    rw [h1, h2]

/-- C3 as stated is false: the numerator of the quotient is not the size of
the intersection of the two token SETS but counts the first string's tokens
with multiplicity.  Concrete input: "apple apple banana zzz" vs
"apple cherry" — the code yields 2/4 = 1/2 while the set-based Jaccard of the
claim yields 1/4 (no substring bonus applies). -/
theorem claim_C3_counterexample :
    computeSimilarity "apple apple banana zzz".toList "apple cherry".toList = 1 / 2 ∧
      specSimilarity "apple apple banana zzz".toList "apple cherry".toList = 1 / 4 := by
  constructor
  · have hinter : ((tokenize "apple apple banana zzz".toList).filter
        (fun w => (tokenize "apple cherry".toList).contains w)).length = 2 := by decide
    have huni : (dedupFirst (tokenize "apple apple banana zzz".toList ++
        tokenize "apple cherry".toList)).length = 4 := by decide
    have hmatch : (containsSub (toLowerL "apple cherry".toList)
        (toLowerL "apple apple banana zzz".toList) ||
        containsSub (toLowerL "apple apple banana zzz".toList)
          (toLowerL "apple cherry".toList)) = false := by decide
    simp only [computeSimilarity, hinter, huni, hmatch, Bool.false_eq_true, if_false,
      OfNat.ofNat_ne_zero]
    norm_num [min_def]
  · have hinter : ((dedupFirst (tokenize "apple apple banana zzz".toList)).filter
        (fun w => (dedupFirst (tokenize "apple cherry".toList)).contains w)).length = 1 := by
      decide
    have huni : (dedupFirst (dedupFirst (tokenize "apple apple banana zzz".toList) ++
        dedupFirst (tokenize "apple cherry".toList))).length = 4 := by decide
    have hmatch : (containsSub (toLowerL "apple cherry".toList)
        (toLowerL "apple apple banana zzz".toList) ||
        containsSub (toLowerL "apple apple banana zzz".toList)
          (toLowerL "apple cherry".toList)) = false := by decide
    simp only [specSimilarity, hinter, huni, hmatch, Bool.false_eq_true, if_false,
      OfNat.ofNat_ne_zero]
    norm_num [min_def]

/-- C3 amended: the score equals (number of first-string tokens, counted with
multiplicity, that occur among the second string's tokens) divided by the
number of distinct tokens of the union, plus the fixed 0.3 bonus when either
full lowercased string contains the other, clamped at 1; when the first
string's token list happens to be duplicate-free this coincides with the
set-based Jaccard formula of the claim (computeSimilarity = specSimilarity). -/
theorem claim_C3_amended (nlq1 nlq2 : List Char) (h : (tokenize nlq1).Nodup) :
    computeSimilarity nlq1 nlq2 = specSimilarity nlq1 nlq2 := by
  have hf : List.filter (fun w => (dedupFirst (tokenize nlq2)).contains w) (tokenize nlq1) =
      List.filter (fun w => (tokenize nlq2).contains w) (tokenize nlq1) :=
    List.filter_congr (fun a _ => contains_dedupFirst _ _)
  simp only [computeSimilarity, specSimilarity, dedupFirst_eq_self h,
    length_dedupFirst, List.toFinset_append, toFinset_dedupFirst, hf]

/-- Witness for C3 (amended) at concrete questions with duplicate-free
tokens. -/
theorem claim_C3_amended_witness :
    computeSimilarity "count all users".toList "count the users today".toList =
      specSimilarity "count all users".toList "count the users today".toList :=
  claim_C3_amended _ _ (by decide)

/-!  ## C8: orchestrator error handling  -/

/-- C8: if the schema-reduction step, the example-selection step, or the
external generation call fails (the model of a thrown exception), convert
does not propagate the failure but returns the failure response carrying the
underlying message and the elapsed time, with success = false, no query
text, and no partial pipeline state (all other fields absent). -/
theorem claim_C8 (ops : EngineOps) (defaultSchema : DatabaseSchema)
    (request : NL2KQLRequest) (startTime now : Nat) (e : String)
    (h : ops.refineSchemaStep request.query defaultSchema = Except.error e ∨
      (∃ refined, ops.refineSchemaStep request.query defaultSchema = Except.ok refined ∧
        ops.selectExamplesStep request.query request.database 3 = Except.error e) ∨
      (∃ refined examples,
        ops.refineSchemaStep request.query defaultSchema = Except.ok refined ∧
        ops.selectExamplesStep request.query request.database 3 = Except.ok examples ∧
        ops.generateKQLStep request.query
          ⟨refined.tables.map TableSchema.name, refined.columns.map ColumnSchema.name⟩
          (examples.map (fun ex => (ex.nlq, ex.kql))) = Except.error e)) :
    convert ops defaultSchema request startTime now =
      { success := false
        kql := none
        error := some e
        refinedSchema := none
        examplesUsed := none
        refinements := none
        metadata := some
          { tokensUsed := none, responseTime := some (now - startTime), confidence := none } } := by
  rcases h with h1 | ⟨refined, h1, h2⟩ | ⟨refined, examples, h1, h2, h3⟩
  · rw [convert, h1]
    rfl
  · rw [convert, h1, h2]
    rfl
  · rw [convert, h1, h2]
    simp only []
    rw [h3]
    rfl

/-- Witness for C8: a run whose generation step fails with message "boom"
yields exactly the failure response, with no query text and the elapsed
time 7. -/
theorem claim_C8_witness :
    convert
      ⟨fun q s => Except.ok (refineSchema q s),
        fun q db k => Except.ok (selectExamples [] q db k),
        fun _ _ _ => Except.error "boom"⟩
      ⟨"DB", []⟩ ⟨"count users".toList, none, none⟩ 3 10 =
      { success := false
        kql := none
        error := some "boom"
        refinedSchema := none
        examplesUsed := none
        refinements := none
        metadata := some
          { tokensUsed := none, responseTime := some 7, confidence := none } } :=
  claim_C8 _ _ _ 3 10 "boom"
    (Or.inr (Or.inr ⟨refineSchema "count users".toList ⟨"DB", []⟩,
      selectExamples [] "count users".toList none 3, rfl, rfl, rfl⟩))

/-!  ## Helper lemmas: non-whitespace edges through trimming and repair  -/

theorem getLast?_cons_ne {α : Type} (a : α) {l : List α} (h : l ≠ []) :
    (a :: l).getLast? = l.getLast? := by
  cases l with
  | nil => exact absurd rfl h
  | cons b t => rfl

theorem headOK_dropWhile (l : List Char) : HeadOK (l.dropWhile isWs) := by
  induction l with
  | nil => intro c hc; simp at hc
  | cons a t ih =>
    by_cases ha : isWs a = true
    · rw [List.dropWhile_cons_of_pos ha]
      exact ih
    · rw [List.dropWhile_cons_of_neg ha]
      intro c hc
      simp only [List.head?_cons, Option.some_inj] at hc
      rw [hc] at ha
      simpa using ha

theorem getLast?_dropWhile_of_ne_nil {p : Char → Bool} :
    ∀ {l : List Char}, l.dropWhile p ≠ [] → (l.dropWhile p).getLast? = l.getLast? := by
  intro l
  induction l with
  | nil => intro h; simp at h
  | cons a t ih =>
    intro h
    by_cases ha : p a = true
    · rw [List.dropWhile_cons_of_pos ha] at h ⊢
      have ht : t ≠ [] := by
        intro h0
        rw [h0] at h
        simp at h
      rw [ih h, getLast?_cons_ne a ht]
    · rw [List.dropWhile_cons_of_neg ha]

theorem trim_lastOK (s : List Char) : LastOK (trim s) := by
  intro c hc
  rw [trim, List.getLast?_reverse] at hc
  exact headOK_dropWhile _ c hc

theorem trim_headOK (s : List Char) : HeadOK (trim s) := by
  intro c hc
  rw [trim, List.head?_reverse] at hc
  by_cases h0 : (s.dropWhile isWs).reverse.dropWhile isWs = []
  · rw [h0] at hc
    simp at hc
  · rw [getLast?_dropWhile_of_ne_nil h0, List.getLast?_reverse] at hc
    exact headOK_dropWhile _ c hc

theorem dropWhile_eq_self_of_headOK {s : List Char} (h : HeadOK s) :
    s.dropWhile isWs = s := by
  cases s with
  | nil => rfl
  | cons a t =>
    have ha : isWs a = false := h a rfl
    rw [List.dropWhile_cons_of_neg (by simp [ha])]

theorem trim_eq_self {s : List Char} (h1 : HeadOK s) (h2 : LastOK s) : trim s = s := by
  rw [trim, dropWhile_eq_self_of_headOK h1]
  have h3 : HeadOK s.reverse := by
    intro c hc
    rw [List.head?_reverse] at hc
    exact h2 c hc
  rw [dropWhile_eq_self_of_headOK h3, List.reverse_reverse]

theorem headOK_all {s : List Char} (h : ∀ c ∈ s, isWs c = false) : HeadOK s :=
  fun c hc => h c (List.mem_of_mem_head? hc)

theorem lastOK_all {s : List Char} (h : ∀ c ∈ s, isWs c = false) : LastOK s := by
  intro c hc
  apply h c
  rw [← List.head?_reverse] at hc
  have := List.mem_of_mem_head? hc
  simpa using this

theorem headOK_append {s t : List Char} (hs : HeadOK s) (ht : HeadOK t) :
    HeadOK (s ++ t) := by
  cases s with
  | nil => simpa using ht
  | cons a l =>
    intro c hc
    simp only [List.cons_append, List.head?_cons, Option.some_inj] at hc
    exact hs c (by rw [List.head?_cons, hc])

theorem lastOK_append {s t : List Char} (hs : LastOK s) (ht : LastOK t) :
    LastOK (s ++ t) := by
  by_cases h0 : t = []
  · rw [h0, List.append_nil]
    exact hs
  · intro c hc
    rw [List.getLast?_append_of_ne_nil _ h0] at hc
    exact ht c hc

theorem replaceSub3_ne_nil (p1 p2 p3 r1 r2 : Char) :
    ∀ {s : List Char}, s ≠ [] → replaceSub3 p1 p2 p3 r1 r2 s ≠ [] := by
  intro s hs
  match s, hs with
  | c1 :: c2 :: c3 :: rest, _ =>
    rw [replaceSub3]
    split <;> simp
  | [c1], _ => simp [replaceSub3]
  | [c1, c2], _ => simp [replaceSub3]

theorem replaceSub3_headOK (p1 p2 p3 r1 r2 : Char) (hr : isWs r1 = false)
    {s : List Char} (hs : HeadOK s) : HeadOK (replaceSub3 p1 p2 p3 r1 r2 s) := by
  match s with
  | c1 :: c2 :: c3 :: rest =>
    rw [replaceSub3]
    split
    · intro c hc
      simp only [List.head?_cons, Option.some_inj] at hc
      rw [← hc]
      exact hr
    · intro c hc
      simp only [List.head?_cons, Option.some_inj] at hc
      rw [← hc]
      exact hs c1 rfl
  | [c1] => exact hs
  | [c1, c2] => exact hs
  | [] => exact hs

theorem replaceSub3_lastOK (p1 p2 p3 r1 r2 : Char) (hr : isWs r2 = false) :
    ∀ s : List Char, LastOK s → LastOK (replaceSub3 p1 p2 p3 r1 r2 s) := by
  intro s
  induction s using replaceSub3.induct p1 p2 p3 r1 r2 with
  | case1 c1 c2 c3 rest hmatch ih =>
    intro hs
    rw [replaceSub3, if_pos hmatch]
    by_cases h0 : rest = []
    · subst h0
      intro c hc
      simp only [replaceSub3, List.getLast?_cons_cons, List.getLast?_singleton,
        Option.some_inj] at hc
      rw [← hc]
      exact hr
    · have hrest : LastOK rest := by
        intro c hc
        apply hs
        rw [getLast?_cons_ne c1 (by simp), getLast?_cons_ne c2 (by simp),
          getLast?_cons_ne c3 h0]
        exact hc
      have hout := ih hrest
      have hnn := replaceSub3_ne_nil p1 p2 p3 r1 r2 h0
      intro c hc
      rw [getLast?_cons_ne r1 (by simp), getLast?_cons_ne r2 hnn] at hc
      exact hout c hc
  | case2 c1 c2 c3 rest hmatch ih =>
    intro hs
    rw [replaceSub3, if_neg hmatch]
    have htail : LastOK (c2 :: c3 :: rest) := by
      intro c hc
      apply hs
      rw [getLast?_cons_ne c1 (by simp)]
      exact hc
    have hout := ih htail
    have hnn := replaceSub3_ne_nil p1 p2 p3 r1 r2 (s := c2 :: c3 :: rest) (by simp)
    intro c hc
    rw [getLast?_cons_ne c1 hnn] at hc
    exact hout c hc
  | case3 s h1 =>
    intro hs
    have : replaceSub3 p1 p2 p3 r1 r2 s = s := by
      match s with
      | [] => rfl
      | [c1] => rfl
      | [c1, c2] => rfl
      | c1 :: c2 :: c3 :: rest => exact (h1 c1 c2 c3 rest rfl).elim
    rw [this]
    exact hs

theorem splitLines_ne_nil : ∀ s : List Char, ∃ l ls, splitLines s = l :: ls := by
  intro s
  induction s with
  | nil => exact ⟨[], [], rfl⟩
  | cons c rest ih =>
    obtain ⟨l, ls, hls⟩ := ih
    by_cases hc : c = '\n'
    · exact ⟨[], l :: ls, by rw [splitLines, hls]; simp [hc]⟩
    · exact ⟨c :: l, ls, by rw [splitLines, hls]; simp [hc]⟩

theorem splitLines_last :
    ∀ s : List Char, s ≠ [] → LastOK s →
      ∃ L, (splitLines s).getLast? = some L ∧ L ≠ [] ∧ L.getLast? = s.getLast? := by
  intro s
  induction s with
  | nil => intro h; exact absurd rfl h
  | cons c rest ih =>
    intro _ hlast
    cases rest with
    | nil =>
      have hc : isWs c = false := hlast c rfl
      have hcn : c ≠ '\n' := by
        intro h0
        rw [h0] at hc
        exact absurd hc (by decide)
      refine ⟨[c], ?_, by simp, rfl⟩
      show (splitLines [c]).getLast? = some [c]
      simp [splitLines, hcn]
    | cons d t =>
      have hrest : LastOK (d :: t) := by
        intro x hx
        apply hlast
        rw [getLast?_cons_ne c (by simp)]
        exact hx
      obtain ⟨L, hL1, hL2, hL3⟩ := ih (by simp) hrest
      obtain ⟨l, ls, hls⟩ := splitLines_ne_nil (d :: t)
      have hgl : (c :: d :: t).getLast? = (d :: t).getLast? := getLast?_cons_ne c (by simp)
      by_cases hc : c = '\n'
      · refine ⟨L, ?_, hL2, by rw [hL3, hgl]⟩
        show (splitLines (c :: d :: t)).getLast? = some L
        rw [splitLines, hls]
        simp only [hc, if_pos]
        rw [getLast?_cons_ne [] (by simp), ← hls]
        exact hL1
      · cases ls with
        | nil =>
          have hLl : l = L := by
            rw [hls] at hL1
            simpa using hL1
          refine ⟨c :: L, ?_, by simp, ?_⟩
          · show (splitLines (c :: d :: t)).getLast? = some (c :: L)
            rw [splitLines, hls]
            simp [hc, hLl]
          · rw [getLast?_cons_ne c hL2, hL3, hgl]
        | cons l2 ls2 =>
          refine ⟨L, ?_, hL2, by rw [hL3, hgl]⟩
          show (splitLines (c :: d :: t)).getLast? = some L
          rw [splitLines, hls]
          simp only [hc, if_neg, ite_false]
          rw [getLast?_cons_ne (c :: l) (by simp)]
          rw [hls] at hL1
          rw [getLast?_cons_ne l (by simp)] at hL1
          exact hL1

theorem fixLines_last :
    ∀ (ys : List (List Char)) (i : Nat) (L : List Char),
      ys.getLast? = some L → L ≠ [] → LastOK L →
      ∃ M, (fixLines i ys).getLast? = some M ∧ M ≠ [] ∧ LastOK M := by
  intro ys
  induction ys with
  | nil => intro i L hL; simp at hL
  | cons x xs ih =>
    intro i L hL hL2 hL3
    cases xs with
    | nil =>
      have hxL : x = L := by simpa using hL
      subst hxL
      have hfix : fixLines i [x] = [if i = 0 then x else fixLine x] := by
        simp [fixLines]
      rw [hfix]
      by_cases hi : i = 0
      · exact ⟨x, by simp [hi], hL2, hL3⟩
      · rw [if_neg hi]
        unfold fixLine
        dsimp only
        split
        · rename_i hguard
          have htne : trim x ≠ [] := by
            intro h0
            rw [h0] at hguard
            simp at hguard
          refine ⟨'|' :: ' ' :: trim x, by simp, by simp, ?_⟩
          intro c hc
          rw [getLast?_cons_ne _ (by simp), getLast?_cons_ne _ htne] at hc
          exact trim_lastOK x c hc
        · exact ⟨x, by simp, hL2, hL3⟩
    | cons y t =>
      have hL' : (y :: t).getLast? = some L := by
        rw [← getLast?_cons_ne x (by simp)]
        exact hL
      obtain ⟨M, hM1, hM2, hM3⟩ := ih (i + 1) L hL' hL2 hL3
      refine ⟨M, ?_, hM2, hM3⟩
      show ((if i = 0 then x else fixLine x) :: fixLines (i + 1) (y :: t)).getLast? = some M
      rw [getLast?_cons_ne _ (by simp [fixLines])]
      exact hM1

theorem joinLines_ne_nil :
    ∀ ys : List (List Char), ∀ M, ys.getLast? = some M → M ≠ [] → joinLines ys ≠ [] := by
  intro ys
  induction ys with
  | nil => intro M hM; simp at hM
  | cons x xs ih =>
    intro M hM hM2
    cases xs with
    | nil =>
      have : x = M := by simpa using hM
      subst this
      simpa [joinLines] using hM2
    | cons y t =>
      show x ++ '\n' :: joinLines (y :: t) ≠ []
      simp

theorem joinLines_lastOK :
    ∀ ys : List (List Char), ∀ M, ys.getLast? = some M → M ≠ [] → LastOK M →
      LastOK (joinLines ys) := by
  intro ys
  induction ys with
  | nil => intro M hM; simp at hM
  | cons x xs ih =>
    intro M hM hM2 hM3
    cases xs with
    | nil =>
      have : x = M := by simpa using hM
      subst this
      exact hM3
    | cons y t =>
      have hM' : (y :: t).getLast? = some M := by
        rw [← getLast?_cons_ne x (by simp)]
        exact hM
      have hJ := ih M hM' hM2 hM3
      have hJn : joinLines (y :: t) ≠ [] := joinLines_ne_nil (y :: t) M hM' hM2
      show LastOK (x ++ '\n' :: joinLines (y :: t))
      intro c hc
      rw [List.getLast?_append_of_ne_nil _ (by simp),
        getLast?_cons_ne '\n' hJn] at hc
      exact hJ c hc

theorem pipeStage_headOK {f : List Char} (hf : HeadOK f) :
    HeadOK (joinLines (fixLines 0 (splitLines f))) := by
  cases f with
  | nil =>
    intro c hc
    simp [splitLines, fixLines, joinLines] at hc
  | cons a rest =>
    have ha : isWs a = false := hf a rfl
    have han : a ≠ '\n' := by
      intro h0
      rw [h0] at ha
      exact absurd ha (by decide)
    obtain ⟨l, ls, hls⟩ := splitLines_ne_nil rest
    have hsl : splitLines (a :: rest) = (a :: l) :: ls := by
      rw [splitLines, hls]
      simp [han]
    rw [hsl]
    have hfl : fixLines 0 ((a :: l) :: ls) = (a :: l) :: fixLines 1 ls := by
      simp [fixLines]
    rw [hfl]
    cases hfx : fixLines 1 ls with
    | nil =>
      intro c hc
      simp only [joinLines, List.head?_cons, Option.some_inj] at hc
      rw [← hc]
      exact ha
    | cons z zs =>
      intro c hc
      have hjl : joinLines ((a :: l) :: z :: zs) = (a :: l) ++ '\n' :: joinLines (z :: zs) :=
        rfl
      rw [hjl] at hc
      simp only [List.cons_append, List.head?_cons, Option.some_inj] at hc
      rw [← hc]
      exact ha

theorem pipeStage_lastOK {f : List Char} (hf : LastOK f) :
    LastOK (joinLines (fixLines 0 (splitLines f))) := by
  by_cases h0 : f = []
  · subst h0
    intro c hc
    simp [splitLines, fixLines, joinLines] at hc
  · obtain ⟨L, hL1, hL2, hL3⟩ := splitLines_last f h0 hf
    have hLlast : LastOK L := by
      intro c hc
      apply hf
      rw [← hL3]
      exact hc
    obtain ⟨M, hM1, hM2, hM3⟩ := fixLines_last (splitLines f) 0 L hL1 hL2 hLlast
    exact joinLines_lastOK _ M hM1 hM2 hM3

theorem ite_append_edges (cond : Prop) [Decidable cond] (f t : List Char)
    (h1 : HeadOK f) (h2 : LastOK f) (ht : ∀ c ∈ t, isWs c = false) :
    HeadOK (if cond then f ++ t else f) ∧ LastOK (if cond then f ++ t else f) := by
  split
  · exact ⟨headOK_append h1 (headOK_all ht), lastOK_append h2 (lastOK_all ht)⟩
  · exact ⟨h1, h2⟩

theorem fixSyntaxErrorsL_edges (q : List Char) (errs : List String)
    (h1 : HeadOK q) (h2 : LastOK q) :
    HeadOK (fixSyntaxErrorsL q errs) ∧ LastOK (fixSyntaxErrorsL q errs) := by
  rw [fixSyntaxErrorsL]
  have s2h : HeadOK (replaceSub3 '!' '=' '=' '!' '='
      (replaceSub3 '=' '=' '=' '=' '=' q)) :=
    replaceSub3_headOK '!' '=' '=' '!' '=' (by decide)
      (replaceSub3_headOK '=' '=' '=' '=' '=' (by decide) h1)
  have s2l : LastOK (replaceSub3 '!' '=' '=' '!' '='
      (replaceSub3 '=' '=' '=' '=' '=' q)) :=
    replaceSub3_lastOK '!' '=' '=' '!' '=' (by decide) _
      (replaceSub3_lastOK '=' '=' '=' '=' '=' (by decide) q h2)
  generalize hF2 : replaceSub3 '!' '=' '=' '!' '='
      (replaceSub3 '=' '=' '=' '=' '=' q) = F2 at s2h s2l ⊢
  obtain ⟨s3h, s3l⟩ := ite_append_edges (F2.count '(' > F2.count ')') F2
    (List.replicate (F2.count '(' - F2.count ')') ')') s2h s2l
    (fun c hc => by
      rw [List.eq_of_mem_replicate hc]
      decide)
  generalize hF3 : (if F2.count '(' > F2.count ')' then
      F2 ++ List.replicate (F2.count '(' - F2.count ')') ')' else F2) = F3 at s3h s3l ⊢
  obtain ⟨s4h, s4l⟩ := ite_append_edges (F3.count '[' > F3.count ']') F3
    (List.replicate (F3.count '[' - F3.count ']') ']') s3h s3l
    (fun c hc => by
      rw [List.eq_of_mem_replicate hc]
      decide)
  generalize hF4 : (if F3.count '[' > F3.count ']' then
      F3 ++ List.replicate (F3.count '[' - F3.count ']') ']' else F3) = F4 at s4h s4l ⊢
  obtain ⟨s5h, s5l⟩ := ite_append_edges (F4.count squote % 2 ≠ 0) F4 [squote] s4h s4l
    (fun c hc => by
      rw [List.mem_singleton.mp hc]
      decide)
  generalize hF5 : (if F4.count squote % 2 ≠ 0 then F4 ++ [squote] else F4) = F5
    at s5h s5l ⊢
  obtain ⟨s6h, s6l⟩ := ite_append_edges (F5.count dquote % 2 ≠ 0) F5 [dquote] s5h s5l
    (fun c hc => by
      rw [List.mem_singleton.mp hc]
      decide)
  generalize hF6 : (if F5.count dquote % 2 ≠ 0 then F5 ++ [dquote] else F5) = F6
    at s6h s6l ⊢
  exact ⟨pipeStage_headOK s6h, pipeStage_lastOK s6l⟩

theorem refineLoop_valid_query (schema : Option QuerySchema) (fuel : Nat) :
    ∀ q errors fixes attempts, HeadOK q → LastOK q → (errors = [] → 0 < fuel) →
      (refineLoop schema fuel q errors fixes attempts).isValid = true →
      validateSyntaxL (refineLoop schema fuel q errors fixes attempts).query = [] ∧
        HeadOK (refineLoop schema fuel q errors fixes attempts).query ∧
        LastOK (refineLoop schema fuel q errors fixes attempts).query := by
  induction fuel with
  | zero =>
    intro q e f a h1 h2 h3 hv
    exfalso
    simp only [refineLoop] at hv
    have he : e = [] := by simpa [List.isEmpty_iff] using hv
    exact absurd (h3 he) (by omega)
  | succ n ih =>
    intro q e f a h1 h2 h3 hv
    by_cases hguard : (validateSyntaxL q).length > 0
    · have hred :
          refineLoop schema (n + 1) q e f a =
            refineLoop schema n (fixSyntaxErrorsL q (validateSyntaxL q))
              (e ++ validateSyntaxL q)
              (f ++ ["Fixed syntax errors: " ++ String.intercalate ", " (validateSyntaxL q)])
              (a + 1) := by
        simp only [refineLoop]
        rw [if_pos hguard]
      rw [hred] at hv ⊢
      obtain ⟨hq1, hq2⟩ := fixSyntaxErrorsL_edges q (validateSyntaxL q) h1 h2
      refine ih _ _ _ _ hq1 hq2 ?_ hv
      intro h0
      exfalso
      have : validateSyntaxL q = [] := (List.append_eq_nil.mp h0).2
      rw [this] at hguard
      simp at hguard
    · have hsynt : validateSyntaxL q = [] := by
        rw [← List.length_eq_zero]
        omega
      have hred : refineLoop schema (n + 1) q e f a = ⟨q, true, [], f, a⟩ := by
        simp only [refineLoop]
        rw [if_neg hguard]
        cases schema <;> simp [validateSemanticsL]
      rw [hred]
      exact ⟨hsynt, h1, h2⟩

/-!  ## C7: repair is idempotent at its fixed point  -/

/-- C7: whenever refineQuery reports isValid = true, the structural checker
on the returned query text reports zero errors, and re-running refineQuery on
that returned text yields the same text, isValid = true, no errors, no fixes,
and zero attempts. -/
theorem claim_C7 (kql : List Char) (schema : Option QuerySchema)
    (h : (refineQuery kql schema).isValid = true) :
    validateSyntaxL (refineQuery kql schema).query = [] ∧
      refineQuery (refineQuery kql schema).query schema =
        ⟨(refineQuery kql schema).query, true, [], [], 0⟩ := by
  obtain ⟨hsynt, hh, hl⟩ :=
    refineLoop_valid_query schema maxAttempts (trim kql) [] [] 0
      (trim_headOK kql) (trim_lastOK kql) (fun _ => by simp [maxAttempts]) h
  have hsynt' : validateSyntaxL (refineQuery kql schema).query = [] := hsynt
  have hh' : HeadOK (refineQuery kql schema).query := hh
  have hl' : LastOK (refineQuery kql schema).query := hl
  refine ⟨hsynt', ?_⟩
  generalize hq : (refineQuery kql schema).query = Q at hsynt' hh' hl' ⊢
  show refineLoop schema maxAttempts (trim Q) [] [] 0 = _
  rw [trim_eq_self hh' hl']
  have hm : maxAttempts = 2 + 1 := rfl
  rw [hm]
  simp only [refineLoop]
  rw [if_neg (by rw [hsynt']; simp)]
  cases schema <;> simp [validateSemanticsL]

/-- Witness for C7 at a concrete immediately-valid query. -/
theorem claim_C7_witness :
    validateSyntaxL (refineQuery "SecurityEvent | where EventID == 4625".toList none).query =
        [] ∧
      refineQuery (refineQuery "SecurityEvent | where EventID == 4625".toList none).query
          none =
        ⟨(refineQuery "SecurityEvent | where EventID == 4625".toList none).query, true, [],
          [], 0⟩ :=
  claim_C7 _ _ (by decide)

/-!  ## Sanity checks of the embedding on the specification's scenarios  -/

/-- Scenario (spec section 8): a query with one unmatched opening parenthesis
is repaired by appending the closing parenthesis, reported valid after one
attempt with one recorded fix. -/
theorem scenario_unbalanced_paren :
    refineQuery "SecurityEvent | where TimeGenerated > ago(1h".toList none =
      ⟨"SecurityEvent | where TimeGenerated > ago(1h)".toList, true, [],
        ["Fixed syntax errors: Unbalanced parentheses"], 1⟩ := by
  decide

/-- Scenario (spec section 8): a strict equality token is collapsed. -/
theorem scenario_strict_equality :
    (refineQuery "T | where Activity === 1".toList (some ⟨["T"], ["Activity"]⟩)).query =
      "T | where Activity == 1".toList := by
  decide

/-- Scenario (spec section 8): the question about security events selects a
table whose domain tags include "security" from the default-like schema. -/
theorem scenario_security_question :
    ∃ t ∈ (refineSchema "Show me all security events from the last hour".toList
        ⟨"SecurityDatabase",
          [⟨"SecurityEvent", none,
              [⟨"TimeGenerated", "datetime", none⟩, ⟨"Account", "string", none⟩],
              some ["security", "windows", "authentication"]⟩,
            ⟨"HeartbeatXyz", none, [⟨"Uptime", "int", none⟩], some ["ops"]⟩]⟩).tables,
      ∃ d, t.domain = some d ∧ "security" ∈ d := by
  refine ⟨⟨"SecurityEvent", none,
    [⟨"TimeGenerated", "datetime", none⟩, ⟨"Account", "string", none⟩],
    some ["security", "windows", "authentication"]⟩, by decide, ?_⟩
  exact ⟨["security", "windows", "authentication"], rfl, by decide⟩

/-- Scenario (spec section 8): an empty corpus filtered by an unknown
database id yields an empty selection, not an error. -/
theorem scenario_empty_corpus :
    selectExamples [] "anything".toList (some "UnknownDb") 3 = [] := by
  decide

/-- Sanity: an input of stray closing parentheses cannot be repaired; the
loop exhausts its three attempts and reports the accumulated errors. -/
theorem scenario_exhausted :
    (refineQuery (List.replicate 10 ')') none).isValid = false ∧
      (refineQuery (List.replicate 10 ')') none).attempts = 3 := by
  decide

end NL2KQL
